import Mathlib

/-!
Verification development for the disposable-email-domains service.

The Go sources are shallowly embedded as Lean functions:

* `internal/domain/checker.go` — list loading (`goLoad` / `readListFile`),
  classification (`goCheck`), validation (`goValidate`) and reload.
* `internal/pslrefresher` — payload validation (`pslValidate`), the
  install step, the size-delta anomaly check (`finishInstall`) and the
  scheduling loop's backoff bookkeeping (`loopStep`, `nextBackoff`).
* the blocklist ingestion handler — SSRF address filtering
  (`isDisallowedIP` over `net.IP` predicates) and the per-URL guard.
* `PatchBlock` (declared and tested in the repository but with no body in
  the sources at hand) is modelled from the specification.

External capabilities (the public-suffix evaluator, the address parser of
`net/mail`, the filesystem) are passed in as explicit parameters, exactly
where the Go code calls out to its collaborators. Strings are manipulated
through structurally recursive primitives over the character list so that
every definition evaluates inside the kernel.
-/

namespace DisposableEmail

/-- Whitespace predicate backing Go `strings.TrimSpace` (space, tab,
newline, carriage return, vertical tab, form feed). -/
def charIsSpace (c : Char) : Bool :=
  c = ' ' || c = '\t' || c = '\n' || c = '\r' || c = Char.ofNat 11 || c = Char.ofNat 12

/-- Go `strings.TrimSpace`: drop whitespace from both ends. -/
def trimStr (s : String) : String :=
  String.mk (((s.data.dropWhile charIsSpace).reverse.dropWhile charIsSpace).reverse)

/-- Go `strings.ToLower` on the ASCII data the lists hold. -/
def toLowerStr (s : String) : String :=
  String.mk (s.data.map Char.toLower)

/-- Go `strings.HasPrefix`. -/
def startsWithStr (s pre : String) : Bool :=
  pre.data.isPrefixOf s.data

/-- Go `strings.Contains(s, string(c))` for a single character. -/
def containsChar (s : String) (c : Char) : Bool :=
  s.data.contains c

/-- Go `strings.Contains`: `pat` occurs somewhere inside `s`. -/
def containsSub (s pat : String) : Bool :=
  decide (pat.data <:+: s.data)

/-- Go `strings.Split` on a one-character separator. -/
def splitCharList (c : Char) : List Char → List (List Char)
  | [] => [[]]
  | x :: xs =>
    match splitCharList c xs with
    | [] => if x = c then [[], []] else [[x]]
    | y :: ys => if x = c then [] :: y :: ys else (x :: y) :: ys

/-- Go `strings.Split` on a one-character separator, on `String`. -/
def splitChar (c : Char) (s : String) : List String :=
  (splitCharList c s.data).map String.mk

/-- A line is skipped for indexing when it is blank or a `#` comment. -/
def isSkippableLine (l : String) : Bool :=
  l == "" || startsWithStr l "#"

/-- Lexicographic order on character lists by code point, as Go's
bytewise string order behaves on the ASCII data at hand. -/
def charListLe : List Char → List Char → Bool
  | [], _ => true
  | _ :: _, [] => false
  | a :: as, b :: bs =>
    if a.toNat < b.toNat then true
    else if b.toNat < a.toNat then false
    else charListLe as bs

/-- String order backing `sort.Strings`. -/
def strLe (a b : String) : Bool := charListLe a.data b.data

/-- The sort order used by `sort.Strings`, as a decidable relation. -/
def strOrd (a b : String) : Prop := strLe a b = true

instance : DecidableRel strOrd := fun a b => instDecidableEqBool (strLe a b) true

/-- A filesystem snapshot: maps a path to the lines of the file, or
`none` when opening the file fails (in particular when it is absent). -/
def FileSys : Type := String → Option (List String)

/-- In-memory state of `domain.Checker`: the allow/deny membership sets
(as lists queried only through membership, mirroring the Go maps), the
raw trimmed line sequences, and a counter standing in for `updatedAt`
advancement events. -/
structure CheckerState where
  allow : List String
  block : List String
  rawAllow : List String
  rawBlock : List String
  updateEvents : Nat
  deriving Repr, DecidableEq

/-- `readListFile` from checker.go: opening a missing file is an error;
otherwise every line is trimmed into the raw sequence and non-blank,
non-comment lines are lowercased into the membership set. -/
def readListFile (fs : FileSys) (path : String) :
    Except String (List String × List String) :=
  match fs path with
  | none => .error ("open " ++ path)
  | some lines =>
    let raw := lines.map trimStr
    let set := raw.filterMap (fun l =>
      if isSkippableLine l then none else some (toLowerStr l))
    .ok (set, raw)

/-- `Checker.Load`: reads the allow file, then the block file, and swaps
both sets and both raw sequences in on success; the first open failure
aborts the whole load. -/
def goLoad (fs : FileSys) (allowPath blockPath : String)
    (st : CheckerState) : Except String CheckerState :=
  match readListFile fs allowPath with
  | .error e => .error e
  | .ok (a, ra) =>
    match readListFile fs blockPath with
    | .error e => .error e
    | .ok (b, rb) =>
      .ok { st with allow := a, block := b, rawAllow := ra, rawBlock := rb,
                    updateEvents := st.updateEvents + 1 }

/-- The fields of `domain.Result` that carry the classification. -/
structure GoResult where
  input : String
  kind : String
  validFormat : Bool
  localPart : String
  domain : String
  normalizedDomain : String
  publicSuffix : String
  registrableDomain : String
  isPublicSuffixOnly : Bool
  isSubdomain : Bool
  allowlisted : Bool
  blocklisted : Bool
  status : String
  deriving Repr, DecidableEq

/-- Domain extraction of `Checker.Check`: an input holding `@` is parsed
with `net/mail` (passed in as `mailParse`, returning the parsed address on
success); on parse failure a naive split on `@` is accepted only with
exactly two non-empty parts; an input without `@` is taken as a bare
domain and always considered format-valid. Returns
(type, validFormat, localPart, domain). -/
def extractDomain (mailParse : String → Option String) (input : String) :
    String × Bool × String × String :=
  if containsChar input '@' then
    match mailParse input with
    | some addr =>
      match splitChar '@' addr with
      | [lp, d] => ("email", true, lp, d)
      | _ => ("email", false, "", "")
    | none =>
      match splitChar '@' input with
      | [lp, d] =>
        if lp ≠ "" ∧ d ≠ "" then ("email", true, lp, d)
        else ("email", false, "", "")
      | _ => ("email", false, "", "")
  else ("domain", true, "", input)

/-- `Checker.Check`: trims and lowercases the extracted domain, computes
public suffix and eTLD+1 through the suffix-rule evaluator (`psFn`,
`etldFn`, with `""` standing for the evaluator's error result), and looks
the **exact normalized domain** up in both membership sets; status is
allow over block over neutral. -/
def goCheck (mailParse : String → Option String)
    (psFn etldFn : String → String)
    (st : CheckerState) (input : String) : GoResult :=
  let e := extractDomain mailParse input
  let dom := trimStr e.2.2.2
  let nd := toLowerStr dom
  let ps := psFn nd
  let e1 := etldFn nd
  let allowB := st.allow.contains nd
  let blockB := st.block.contains nd
  { input := input
    kind := e.1
    validFormat := e.2.1
    localPart := e.2.2.1
    domain := dom
    normalizedDomain := nd
    publicSuffix := ps
    registrableDomain := e1
    isPublicSuffixOnly := decide (ps ≠ "" ∧ ps = nd)
    isSubdomain := decide (e1 ≠ "" ∧ nd ≠ e1)
    allowlisted := allowB
    blocklisted := blockB
    status := if allowB then "allow" else if blockB then "block" else "neutral" }

/-- The checker state of the `TestETLD1Matching` scenario: allow list
`good.com`, deny list `bad.com`. -/
def etldTestState : CheckerState :=
  { allow := ["good.com"], block := ["bad.com"],
    rawAllow := ["good.com"], rawBlock := ["bad.com"], updateEvents := 1 }

/-- C1: the spec (and the repository's own `TestETLD1Matching`) demand
that a deny entry equal to the queried domain's registrable domain makes
`Check` report `Blocklisted = true`; the code looks up only the exact
normalized domain, so for `x.y.bad.com` against deny entry `bad.com` it
reports `Blocklisted = false` and status `neutral` even though the
computed registrable domain is exactly the deny entry. -/
theorem check_ignores_registrable_domain
    (mailParse : String → Option String) (psFn etldFn : String → String)
    (h : etldFn "x.y.bad.com" = "bad.com") :
    (goCheck mailParse psFn etldFn etldTestState "x.y.bad.com").registrableDomain
        = "bad.com" ∧
    "bad.com" ∈ etldTestState.block ∧
    (goCheck mailParse psFn etldFn etldTestState "x.y.bad.com").blocklisted
        = false ∧
    (goCheck mailParse psFn etldFn etldTestState "x.y.bad.com").status
        = "neutral" := by
  refine ⟨h, by decide, rfl, rfl⟩

/-- C1 witness: the divergence evaluated at a concrete suffix evaluator
sending every domain to `bad.com`. -/
theorem check_ignores_registrable_domain_witness :
    (goCheck (fun _ => none) (fun _ => "com") (fun _ => "bad.com")
        etldTestState "x.y.bad.com").blocklisted = false ∧
    (goCheck (fun _ => none) (fun _ => "com") (fun _ => "bad.com")
        etldTestState "x.y.bad.com").status = "neutral" := by
  have h := check_ignores_registrable_domain
    (fun _ => none) (fun _ => "com") (fun _ => "bad.com") rfl
  exact ⟨h.2.2.1, h.2.2.2⟩

/-- C2: the reported status follows the allow-over-block-over-neutral
precedence applied to the two membership booleans, and those booleans are
exactly membership of the normalized domain in the respective sets: both
match gives `allow`, neither gives `neutral`, deny only gives `block`. -/
theorem check_status_precedence
    (mailParse : String → Option String) (psFn etldFn : String → String)
    (st : CheckerState) (input : String) :
    (goCheck mailParse psFn etldFn st input).allowlisted
        = st.allow.contains (goCheck mailParse psFn etldFn st input).normalizedDomain ∧
    (goCheck mailParse psFn etldFn st input).blocklisted
        = st.block.contains (goCheck mailParse psFn etldFn st input).normalizedDomain ∧
    (goCheck mailParse psFn etldFn st input).status
        = (if (goCheck mailParse psFn etldFn st input).allowlisted then "allow"
           else if (goCheck mailParse psFn etldFn st input).blocklisted then "block"
           else "neutral") :=
  ⟨rfl, rfl, rfl⟩

/-- C3 counterexample: on a filesystem where no list file exists, `Load`
fails with the open error of the allow file — it does not create the file
and does not succeed, refuting "Load never fails merely because a list
file does not yet exist". -/
theorem load_fails_on_absent_file :
    goLoad (fun _ => none) "allowlist.conf" "blocklist.conf"
        ⟨[], [], [], [], 0⟩ = .error "open allowlist.conf" := rfl

/-- C3 amended: `Load` succeeds exactly when both list files open; a
missing file is an error (no creation with a header comment is
attempted — `goLoad` only reads the filesystem), and absence is tolerated
only by callers that ignore the returned error. -/
theorem load_ok_iff_both_files_open (fs : FileSys)
    (allowPath blockPath : String) (st : CheckerState) :
    (goLoad fs allowPath blockPath st).toOption.isSome
      = ((fs allowPath).isSome && (fs blockPath).isSome) := by
  unfold goLoad readListFile
  cases hA : fs allowPath <;> cases hB : fs blockPath <;>
    simp [Except.toOption]

/-! ### `Checker.Validate` -/

/-- The non-blank, non-comment lines of a raw sequence, in order. -/
def cleanedLines (lines : List String) : List String :=
  lines.filter (fun l => !(isSkippableLine l))

/-- `lowerViol` inside `Validate`: non-comment lines that are not equal to
their lowercased form, in order of appearance. -/
def lowerViolations (lines : List String) : List String :=
  (cleanedLines lines).filter (fun l => l != toLowerStr l)

/-- `dupes` inside `Validate`: the (sorted) raw lines occurring more than
once verbatim among non-blank, non-comment lines. -/
def duplicateLines (lines : List String) : List String :=
  ((cleanedLines lines).dedup.filter
    (fun l => 2 ≤ (cleanedLines lines).count l)).insertionSort strOrd

/-- The hint text of `isSorted` inside `Validate`: the first position
where the sequence differs from its sorted copy, or `""`. -/
def firstOrderViolation : List String → List String → String
  | x :: xs, y :: ys =>
    if x == y then firstOrderViolation xs ys
    else y ++ " should come before " ++ x
  | _, _ => ""

/-- Sorting hint for one raw sequence. -/
def sortHint (lines : List String) : String :=
  firstOrderViolation lines (lines.insertionSort strOrd)

/-- The `publicSuffixOnly` accumulation of `Validate`: trimmed non-comment
deny lines whose lowercase form is its own public suffix. -/
def publicSuffixFindings (psFn : String → String) (rawB : List String) :
    List String :=
  rawB.filterMap (fun l =>
    let line := trimStr l
    if isSkippableLine line then none
    else if psFn (toLowerStr line) = toLowerStr line then some line else none)

/-- The `thirdLevel` accumulation of `Validate`: trimmed non-comment deny
lines strictly below their registrable domain. -/
def thirdLevelFindings (etldFn : String → String) (rawB : List String) :
    List String :=
  rawB.filterMap (fun l =>
    let line := trimStr l
    if isSkippableLine line then none
    else
      let d := toLowerStr line
      let e1 := etldFn d
      if e1 ≠ "" ∧ e1 ≠ d then some line else none)

/-- The sorted intersection between the deny and allow membership sets. -/
def listIntersection (st : CheckerState) : List String :=
  (st.block.dedup.filter (fun k => st.allow.contains k)).insertionSort strOrd

/-- The fields of `domain.Report`. -/
structure GoReport where
  errorsFound : Bool
  publicSuffixInBlock : List String
  thirdLevelInBlock : List String
  nonLowercaseAllow : List String
  nonLowercaseBlock : List String
  duplicatesAllow : List String
  duplicatesBlock : List String
  unsortedAllowHint : String
  unsortedBlockHint : String
  intersection : List String
  deriving Repr, DecidableEq

/-- `Checker.Validate` on a snapshot of the two raw sequences and the two
membership sets: the seven hygiene findings plus the advisory sort hints;
`errorsFound` is set exactly when one of the seven lists is non-empty. -/
def goValidate (psFn etldFn : String → String) (st : CheckerState) :
    GoReport :=
  let pso := publicSuffixFindings psFn st.rawBlock
  let tl := thirdLevelFindings etldFn st.rawBlock
  let nlA := lowerViolations st.rawAllow
  let nlB := lowerViolations st.rawBlock
  let dA := duplicateLines st.rawAllow
  let dB := duplicateLines st.rawBlock
  let inter := listIntersection st
  { errorsFound := !pso.isEmpty || !tl.isEmpty || !nlA.isEmpty
      || !nlB.isEmpty || !dA.isEmpty || !dB.isEmpty || !inter.isEmpty
    publicSuffixInBlock := pso
    thirdLevelInBlock := tl
    nonLowercaseAllow := nlA
    nonLowercaseBlock := nlB
    duplicatesAllow := dA
    duplicatesBlock := dB
    unsortedAllowHint := sortHint st.rawAllow
    unsortedBlockHint := sortHint st.rawBlock
    intersection := inter }

/-- Duplicate detection is verbatim on raw lines: membership in the
duplicate findings is exactly "non-skippable and occurs at least twice". -/
theorem mem_duplicateLines (lines : List String) (l : String) :
    l ∈ duplicateLines lines ↔
      (isSkippableLine l = false ∧ 2 ≤ lines.count l) := by
  unfold duplicateLines
  rw [(List.perm_insertionSort strOrd _).mem_iff]
  rw [List.mem_filter, List.mem_dedup]
  unfold cleanedLines
  constructor
  · rintro ⟨hmem, hcount⟩
    rw [List.mem_filter] at hmem
    have hskip : isSkippableLine l = false := by
      have := hmem.2
      simpa using this
    refine ⟨hskip, ?_⟩
    have hc : (List.filter (fun l => !isSkippableLine l) lines).count l
        = lines.count l := by
      apply List.count_filter
      simp [hskip]
    simpa [hc] using hcount
  · rintro ⟨hskip, hcount⟩
    have hmem : l ∈ lines := by
      have : 0 < lines.count l := by omega
      exact List.count_pos_iff.mp this
    have hc : (List.filter (fun l => !isSkippableLine l) lines).count l
        = lines.count l := by
      apply List.count_filter
      simp [hskip]
    refine ⟨List.mem_filter.mpr ⟨hmem, by simp [hskip]⟩, ?_⟩
    simpa [hc] using hcount

/-- C7: `Validate` reports `BAD.COM` as a non-lowercase violation whenever
it appears among the raw deny lines, while a line is a duplicate finding
iff the identical raw string occurs more than once verbatim — so the pair
`BAD.COM`/`bad.com` alone is never a duplicate. -/
theorem validate_case_and_duplicate_semantics
    (psFn etldFn : String → String) (st : CheckerState)
    (h : "BAD.COM" ∈ st.rawBlock) :
    "BAD.COM" ∈ (goValidate psFn etldFn st).nonLowercaseBlock ∧
    (∀ l : String, l ∈ (goValidate psFn etldFn st).duplicatesBlock ↔
      (isSkippableLine l = false ∧ 2 ≤ st.rawBlock.count l)) := by
  constructor
  · show "BAD.COM" ∈ lowerViolations st.rawBlock
    unfold lowerViolations cleanedLines
    rw [List.mem_filter, List.mem_filter]
    exact ⟨⟨h, by decide⟩, by decide⟩
  · intro l
    exact mem_duplicateLines st.rawBlock l

/-- The deny raw sequence of the C7 scenario. -/
def caseDupState : CheckerState :=
  { allow := [], block := ["bad.com"], rawAllow := [],
    rawBlock := ["BAD.COM", "bad.com"], updateEvents := 1 }

/-- C7 witness: concretely, raw deny lines `[BAD.COM, bad.com]` produce
the non-lowercase finding `BAD.COM` and no duplicate finding. -/
theorem validate_case_and_duplicate_semantics_witness :
    "BAD.COM" ∈ (goValidate (fun _ => "com") (fun _ => "bad.com")
        caseDupState).nonLowercaseBlock ∧
    "bad.com" ∉ (goValidate (fun _ => "com") (fun _ => "bad.com")
        caseDupState).duplicatesBlock := by
  have h := validate_case_and_duplicate_semantics
    (fun _ => "com") (fun _ => "bad.com") caseDupState (by decide)
  refine ⟨h.1, fun hmem => ?_⟩
  have h2 := (h.2 "bad.com").mp hmem
  exact absurd h2.2 (by decide)

/-- C10: `ErrorsFound` is true iff one of the seven violation lists is
non-empty; in particular third-or-lower-level findings alone force it,
and the sort-order hints play no part in it. -/
theorem validate_errors_found_iff (psFn etldFn : String → String)
    (st : CheckerState) :
    (goValidate psFn etldFn st).errorsFound
      = (!(goValidate psFn etldFn st).publicSuffixInBlock.isEmpty
         || !(goValidate psFn etldFn st).thirdLevelInBlock.isEmpty
         || !(goValidate psFn etldFn st).nonLowercaseAllow.isEmpty
         || !(goValidate psFn etldFn st).nonLowercaseBlock.isEmpty
         || !(goValidate psFn etldFn st).duplicatesAllow.isEmpty
         || !(goValidate psFn etldFn st).duplicatesBlock.isEmpty
         || !(goValidate psFn etldFn st).intersection.isEmpty) ∧
    ((goValidate psFn etldFn st).thirdLevelInBlock ≠ [] →
      (goValidate psFn etldFn st).errorsFound = true) := by
  refine ⟨rfl, fun hne => ?_⟩
  have : (goValidate psFn etldFn st).thirdLevelInBlock.isEmpty = false := by
    cases hcase : (goValidate psFn etldFn st).thirdLevelInBlock with
    | nil => exact absurd hcase hne
    | cons a t => rfl
  show (_ : Bool) = true
  rw [show (goValidate psFn etldFn st).errorsFound
      = (!(goValidate psFn etldFn st).publicSuffixInBlock.isEmpty
         || !(goValidate psFn etldFn st).thirdLevelInBlock.isEmpty
         || !(goValidate psFn etldFn st).nonLowercaseAllow.isEmpty
         || !(goValidate psFn etldFn st).nonLowercaseBlock.isEmpty
         || !(goValidate psFn etldFn st).duplicatesAllow.isEmpty
         || !(goValidate psFn etldFn st).duplicatesBlock.isEmpty
         || !(goValidate psFn etldFn st).intersection.isEmpty) from rfl]
  simp [this]

/-- The deny list of the C10 scenario: one third-level entry only. -/
def thirdLevelState : CheckerState :=
  { allow := [], block := ["sub.example.com"], rawAllow := [],
    rawBlock := ["sub.example.com"], updateEvents := 1 }

/-- C10 witness: a deny list whose only finding is a third-level entry
yields `ErrorsFound = true`. -/
theorem validate_errors_found_iff_witness :
    (goValidate (fun _ => "com") (fun _ => "example.com")
        thirdLevelState).errorsFound = true := by
  have h := validate_errors_found_iff
    (fun _ => "com") (fun _ => "example.com") thirdLevelState
  exact h.2 (by decide)

/-! ### `Checker.PatchBlock` -/

/-- Candidate normalization of `Patch`: lowercase of the trimmed line. -/
def normEntry (e : String) : String := toLowerStr (trimStr e)

/-- Outcome of one patch pass over the deny structures. -/
structure PatchResult where
  block : List String
  rawBlock : List String
  inserted : Nat
  deriving Repr, DecidableEq

/-- Modelled from the spec: the body of `Checker.PatchBlock` is absent
from the sources at hand (only its tests and call sites are present).
Per §4.1, each candidate is normalized (lowercase, trim); empty and
comment-prefixed candidates are skipped; candidates already present in
the deny set are skipped; the rest are inserted into both the membership
set and the raw sequence. -/
def patchCore (block rawBlock : List String) : List String → PatchResult
  | [] => ⟨block, rawBlock, 0⟩
  | e :: es =>
    let n := normEntry e
    if isSkippableLine n then patchCore block rawBlock es
    else if block.contains n then patchCore block rawBlock es
    else
      let r := patchCore (block ++ [n]) (rawBlock ++ [n]) es
      ⟨r.block, r.rawBlock, r.inserted + 1⟩

/-- Modelled from the spec: `PatchBlock` folds the candidates into the
deny structures and advances the update timestamp only when at least one
entry was actually inserted. -/
def patchBlock (st : CheckerState) (entries : List String) : CheckerState :=
  let r := patchCore st.block st.rawBlock entries
  { st with block := r.block, rawBlock := r.rawBlock,
            updateEvents := st.updateEvents + (if r.inserted = 0 then 0 else 1) }

/-- A patch pass only ever appends to the deny structures. -/
theorem patchCore_appends (es : List String) :
    ∀ block rawBlock : List String,
      (∃ tb, (patchCore block rawBlock es).block = block ++ tb) ∧
      (∃ tr, (patchCore block rawBlock es).rawBlock = rawBlock ++ tr) := by
  induction es with
  | nil => intro b r; exact ⟨⟨[], by simp [patchCore]⟩, ⟨[], by simp [patchCore]⟩⟩
  | cons e es ih =>
    intro b r
    by_cases hskip : isSkippableLine (normEntry e) = true
    · simpa [patchCore, hskip] using ih b r
    · by_cases hmem : normEntry e ∈ b
      · simpa [patchCore, hskip, hmem] using ih b r
      · obtain ⟨⟨tb, htb⟩, ⟨tr, htr⟩⟩ :=
          ih (b ++ [normEntry e]) (r ++ [normEntry e])
        refine ⟨⟨normEntry e :: tb, ?_⟩, ⟨normEntry e :: tr, ?_⟩⟩ <;>
          simp [patchCore, hskip, hmem, htb, htr]

/-- After a patch pass, every candidate is either skippable or a member
of the resulting deny set. -/
theorem patchCore_covers (es : List String) :
    ∀ block rawBlock : List String, ∀ e ∈ es,
      isSkippableLine (normEntry e) = true ∨
      normEntry e ∈ (patchCore block rawBlock es).block := by
  induction es with
  | nil => intro b r e he; exact absurd he (List.not_mem_nil e)
  | cons x es ih =>
    intro b r e he
    by_cases hskip : isSkippableLine (normEntry x) = true
    · rcases List.mem_cons.mp he with rfl | he'
      · exact Or.inl hskip
      · simpa [patchCore, hskip] using ih b r e he'
    · by_cases hmem : normEntry x ∈ b
      · rcases List.mem_cons.mp he with rfl | he'
        · right
          obtain ⟨tb, htb⟩ := (patchCore_appends es b r).1
          simp [patchCore, hskip, hmem, htb]
        · simpa [patchCore, hskip, hmem] using ih b r e he'
      · rcases List.mem_cons.mp he with rfl | he'
        · right
          obtain ⟨tb, htb⟩ :=
            (patchCore_appends es (b ++ [normEntry e]) (r ++ [normEntry e])).1
          simp [patchCore, hskip, hmem, htb]
        · have h2 := ih (b ++ [normEntry x]) (r ++ [normEntry x]) e he'
          rcases h2 with h2 | h2
          · exact Or.inl h2
          · right
            simpa [patchCore, hskip, hmem] using h2

/-- A patch pass whose candidates are all skippable or already present
changes nothing and inserts nothing. -/
theorem patchCore_noop (es : List String) :
    ∀ block rawBlock : List String,
      (∀ e ∈ es, isSkippableLine (normEntry e) = true ∨
        normEntry e ∈ block) →
      patchCore block rawBlock es = ⟨block, rawBlock, 0⟩ := by
  induction es with
  | nil => intro b r _; rfl
  | cons x es ih =>
    intro b r hall
    have hrest := ih b r (fun e he => hall e (List.mem_cons_of_mem x he))
    rcases hall x (List.mem_cons_self x es) with hskip | hmem
    · simp [patchCore, hskip, hrest]
    · by_cases hskip : isSkippableLine (normEntry x) = true
      · simp [patchCore, hskip, hrest]
      · simp [patchCore, hskip, hmem, hrest]

/-- C9: `PatchBlock` is idempotent — submitting the same batch twice
leaves the whole checker state (deny set, raw sequence and update-event
counter) identical to submitting it once, so the second submission is not
an insertion event — and it never removes existing entries: the old deny
set is contained in the new one and the old raw sequence is a prefix of
the new one. -/
theorem patch_block_idempotent_additive (st : CheckerState)
    (es : List String) :
    patchBlock (patchBlock st es) es = patchBlock st es ∧
    (∀ x, x ∈ st.block → x ∈ (patchBlock st es).block) ∧
    (∃ t, (patchBlock st es).rawBlock = st.rawBlock ++ t) ∧
    (patchBlock (patchBlock st es) es).updateEvents
      = (patchBlock st es).updateEvents := by
  have hcover := patchCore_covers es st.block st.rawBlock
  have happend := patchCore_appends es st.block st.rawBlock
  have hnoop : patchCore (patchCore st.block st.rawBlock es).block
      (patchCore st.block st.rawBlock es).rawBlock es
      = ⟨(patchCore st.block st.rawBlock es).block,
         (patchCore st.block st.rawBlock es).rawBlock, 0⟩ :=
    patchCore_noop es _ _ (fun e he => hcover e he)
  have hidem : patchBlock (patchBlock st es) es = patchBlock st es := by
    show patchBlock
      { st with block := (patchCore st.block st.rawBlock es).block,
                rawBlock := (patchCore st.block st.rawBlock es).rawBlock,
                updateEvents := st.updateEvents
                  + (if (patchCore st.block st.rawBlock es).inserted = 0
                     then 0 else 1) } es = patchBlock st es
    unfold patchBlock
    simp [hnoop]
  refine ⟨hidem, ?_, ?_, by rw [hidem]⟩
  · intro x hx
    obtain ⟨tb, htb⟩ := happend.1
    show x ∈ (patchCore st.block st.rawBlock es).block
    rw [htb]
    exact List.mem_append_left _ hx
  · obtain ⟨tr, htr⟩ := happend.2
    exact ⟨tr, htr⟩

/-- The checker state of the `TestPatchBlock` scenario. -/
def patchTestState : CheckerState :=
  { allow := ["foo.com"], block := ["bar.com"],
    rawAllow := ["foo.com"], rawBlock := ["bar.com"], updateEvents := 1 }

/-- The candidate batch of the `TestPatchBlock` scenario. -/
def patchTestBatch : List String :=
  ["baz.io", "bar.com", "#comment", "   ", "Quux.Org"]

/-- C9 witness: the `TestPatchBlock` batch applied twice equals applying
it once, and the pre-existing entry survives. -/
theorem patch_block_idempotent_additive_witness :
    patchBlock (patchBlock patchTestState patchTestBatch) patchTestBatch
      = patchBlock patchTestState patchTestBatch ∧
    "bar.com" ∈ (patchBlock patchTestState patchTestBatch).block := by
  have h := patch_block_idempotent_additive patchTestState patchTestBatch
  exact ⟨h.1, h.2.1 "bar.com" (by decide)⟩

/-! ### Snapshot refresher: payload validation and install -/

/-- First section marker of the reference snapshot. -/
def pslBeginMarker : String := "===BEGIN ICANN DOMAINS==="

/-- Second section marker of the reference snapshot. -/
def pslEndMarker : String := "===END ICANN DOMAINS==="

/-- Payload size, as the Go `len(data)`. -/
def strLen (s : String) : Nat := s.data.length

/-- The first kilobyte of the payload (`data[:1024]`, or all of it when
shorter). -/
def takeStr (s : String) (n : Nat) : String := String.mk (s.data.take n)

/-- Line count as `bufio.Scanner` sees it: newline-separated, a trailing
newline not opening a final empty line. -/
def countLines (s : String) : Nat :=
  let parts := splitChar '\n' s
  if parts.getLast? = some "" then parts.length - 1 else parts.length

/-- `validate` from the refresher: size band, HTML sniff over the
lowercased first kilobyte, both ICANN section markers, then the minimum
line count — in that order, stopping at the first failure. -/
def pslValidate (data : String) : Except String Unit :=
  if strLen data < 200000 ∨ 2000000 < strLen data then
    .error ("unexpected size " ++ toString (strLen data))
  else if containsSub (toLowerStr (takeStr data 1024)) "<html" then
    .error "looks like html"
  else if !(containsSub data pslBeginMarker) then
    .error "missing ICANN begin marker"
  else if !(containsSub data pslEndMarker) then
    .error "missing ICANN end marker"
  else if countLines data < 5000 then
    .error ("too few lines: " ++ toString (countLines data))
  else .ok ()

/-- The install decision of `tryRefresh` around `validate`: a payload
failing validation produces a failed attempt and leaves the installed
snapshot untouched; a valid payload replaces it. (In the Go code the
temp-file write and rename only happen after `validate` returns nil.) -/
def installStep (prev data : String) : Bool × String :=
  match pslValidate data with
  | .error _ => (false, prev)
  | .ok _ => (true, data)

/-- C4: every payload failing integrity validation makes the refresh
attempt fail with the previous snapshot byte-identical; validation
succeeds iff size is within the inclusive band, the first kilobyte has no
HTML markup, both section markers are present and the line count reaches
the minimum; and the four checks run in exactly that order, reporting the
first failure. -/
theorem psl_validate_gate (prev data : String) :
    (pslValidate data ≠ .ok () → installStep prev data = (false, prev)) ∧
    (pslValidate data = .ok () ↔
      (200000 ≤ strLen data ∧ strLen data ≤ 2000000 ∧
       containsSub (toLowerStr (takeStr data 1024)) "<html" = false ∧
       containsSub data pslBeginMarker = true ∧
       containsSub data pslEndMarker = true ∧
       5000 ≤ countLines data)) ∧
    (strLen data < 200000 ∨ 2000000 < strLen data →
      pslValidate data = .error ("unexpected size " ++ toString (strLen data))) ∧
    (200000 ≤ strLen data → strLen data ≤ 2000000 →
      containsSub (toLowerStr (takeStr data 1024)) "<html" = true →
      pslValidate data = .error "looks like html") ∧
    (200000 ≤ strLen data → strLen data ≤ 2000000 →
      containsSub (toLowerStr (takeStr data 1024)) "<html" = false →
      containsSub data pslBeginMarker = false →
      pslValidate data = .error "missing ICANN begin marker") ∧
    (200000 ≤ strLen data → strLen data ≤ 2000000 →
      containsSub (toLowerStr (takeStr data 1024)) "<html" = false →
      containsSub data pslBeginMarker = true →
      containsSub data pslEndMarker = false →
      pslValidate data = .error "missing ICANN end marker") ∧
    (200000 ≤ strLen data → strLen data ≤ 2000000 →
      containsSub (toLowerStr (takeStr data 1024)) "<html" = false →
      containsSub data pslBeginMarker = true →
      containsSub data pslEndMarker = true →
      countLines data < 5000 →
      pslValidate data = .error ("too few lines: " ++ toString (countLines data))) := by
  refine ⟨?_, ?_, ?_, ?_, ?_, ?_, ?_⟩
  · intro hne
    unfold installStep
    cases hval : pslValidate data with
    | error e => rfl
    | ok u => cases u; exact absurd hval hne
  · unfold pslValidate
    constructor
    · intro hok
      by_cases h1 : strLen data < 200000 ∨ 2000000 < strLen data
      · rw [if_pos h1] at hok; exact absurd hok (by simp)
      · rw [if_neg h1] at hok
        by_cases h2 : containsSub (toLowerStr (takeStr data 1024)) "<html" = true
        · rw [if_pos h2] at hok; exact absurd hok (by simp)
        · rw [if_neg h2] at hok
          by_cases h3 : containsSub data pslBeginMarker = true
          · rw [if_neg (by simp [h3])] at hok
            by_cases h4 : containsSub data pslEndMarker = true
            · rw [if_neg (by simp [h4])] at hok
              by_cases h5 : countLines data < 5000
              · rw [if_pos h5] at hok; exact absurd hok (by simp)
              · exact ⟨by omega, by omega, by simpa using h2, h3, h4, by omega⟩
            · rw [if_pos (by simpa using h4)] at hok
              exact absurd hok (by simp)
          · rw [if_pos (by simpa using h3)] at hok
            exact absurd hok (by simp)
    · rintro ⟨h1, h2, h3, h4, h5, h6⟩
      rw [if_neg (by omega), if_neg (by simp [h3]), if_neg (by simp [h4]),
        if_neg (by simp [h5]), if_neg (by omega)]
  · intro h1
    unfold pslValidate
    rw [if_pos h1]
  · intro h1 h2 h3
    unfold pslValidate
    rw [if_neg (by omega), if_pos h3]
  · intro h1 h2 h3 h4
    unfold pslValidate
    rw [if_neg (by omega), if_neg (by simp [h3]), if_pos (by simp [h4])]
  · intro h1 h2 h3 h4 h5
    unfold pslValidate
    rw [if_neg (by omega), if_neg (by simp [h3]), if_neg (by simp [h4]),
      if_pos (by simp [h5])]
  · intro h1 h2 h3 h4 h5 h6
    unfold pslValidate
    rw [if_neg (by omega), if_neg (by simp [h3]), if_neg (by simp [h4]),
      if_neg (by simp [h5]), if_pos h6]

/-- C4 witness: the empty payload fails the size check and the attempt
leaves the previous snapshot untouched. -/
theorem psl_validate_gate_witness :
    installStep "previous snapshot" "" = (false, "previous snapshot") ∧
    pslValidate "" = .error "unexpected size 0" := by
  have h := psl_validate_gate "previous snapshot" ""
  have herr : pslValidate "" = .error "unexpected size 0" :=
    h.2.2.1 (Or.inl (by decide))
  exact ⟨h.1 (by rw [herr]; simp), herr⟩

/-! ### Snapshot refresher: size-delta anomaly check -/

/-- Refresher bookkeeping mutated by a successful install. -/
structure RefreshPost where
  consecutiveFailures : Nat
  lastSize : Nat
  sizeDeltaWarnings : Nat
  deriving Repr, DecidableEq

/-- The size-delta condition of `tryRefresh`: after the first success
(`lastSize > 0`), warn when the new size falls strictly below
`lastSize - lastSize/5` or strictly above `lastSize + lastSize/5`
(integer division, as in the Go code). -/
def sizeDeltaWarn (lastSize newLen : Nat) : Bool :=
  decide (0 < lastSize ∧
    (newLen < lastSize - lastSize / 5 ∨ lastSize + lastSize / 5 < newLen))

/-- The tail of a successful `tryRefresh` after the rename: reset the
failure streak, bump the warning counter when the size delta is abnormal,
record the new size, and report success unconditionally. -/
def finishInstall (st : RefreshPost) (newLen : Nat) : Bool × RefreshPost :=
  (true,
   { consecutiveFailures := 0
     lastSize := newLen
     sizeDeltaWarnings := st.sizeDeltaWarnings
       + (if sizeDeltaWarn st.lastSize newLen then 1 else 0) })

/-- C5 counterexample: with a previously installed size of 1000, a new
install of size 800 — which is exactly 0.8·S, so "at most 0.8·S" — still
succeeds but does NOT increment the size-delta warning counter, because
the code warns only on a strict excursion beyond the band. -/
theorem size_delta_boundary_counterexample :
    10 * 800 ≤ 8 * 1000 ∧
    (finishInstall ⟨3, 1000, 0⟩ 800).1 = true ∧
    (finishInstall ⟨3, 1000, 0⟩ 800).2.sizeDeltaWarnings = 0 := by
  decide

/-- C5 amended: a successful install always succeeds regardless of the
size delta and resets the failure streak; the warning counter increments
exactly when the previous size is positive and the new size lies strictly
outside the inclusive band `[S - S/5, S + S/5]` (integer division), and
never increments by more than one. -/
theorem size_delta_warning_exact (st : RefreshPost) (newLen : Nat) :
    (finishInstall st newLen).1 = true ∧
    (finishInstall st newLen).2.consecutiveFailures = 0 ∧
    (finishInstall st newLen).2.lastSize = newLen ∧
    ((finishInstall st newLen).2.sizeDeltaWarnings
        = st.sizeDeltaWarnings
          + (if 0 < st.lastSize ∧
                (newLen < st.lastSize - st.lastSize / 5 ∨
                 st.lastSize + st.lastSize / 5 < newLen)
             then 1 else 0)) ∧
    ((finishInstall st newLen).2.sizeDeltaWarnings = st.sizeDeltaWarnings ↔
      (st.lastSize = 0 ∨
        (st.lastSize - st.lastSize / 5 ≤ newLen ∧
         newLen ≤ st.lastSize + st.lastSize / 5))) := by
  have h4 : (finishInstall st newLen).2.sizeDeltaWarnings
      = st.sizeDeltaWarnings
        + (if 0 < st.lastSize ∧
              (newLen < st.lastSize - st.lastSize / 5 ∨
               st.lastSize + st.lastSize / 5 < newLen)
           then 1 else 0) := by
    show st.sizeDeltaWarnings + _ = st.sizeDeltaWarnings + _
    unfold sizeDeltaWarn
    by_cases h : 0 < st.lastSize ∧
        (newLen < st.lastSize - st.lastSize / 5 ∨
         st.lastSize + st.lastSize / 5 < newLen)
    · simp [h]
    · simp [h]
  refine ⟨rfl, rfl, rfl, h4, ?_⟩
  rw [h4]
  by_cases h : 0 < st.lastSize ∧
      (newLen < st.lastSize - st.lastSize / 5 ∨
       st.lastSize + st.lastSize / 5 < newLen)
  · rw [if_pos h]
    obtain ⟨hpos, hout⟩ := h
    constructor
    · intro habs
      exact absurd habs (by omega)
    · intro hband
      exfalso
      rcases hband with h0 | ⟨hlo, hhi⟩
      · omega
      · rcases hout with hlt | hgt <;> omega
  · rw [if_neg h]
    simp only [Nat.add_zero]
    constructor
    · intro _
      rcases Nat.eq_zero_or_pos st.lastSize with h0 | hpos
      · exact Or.inl h0
      · right
        rw [not_and_or] at h
        rcases h with h | h
        · exact absurd hpos h
        · rw [not_or] at h
          obtain ⟨ha, hb⟩ := h
          exact ⟨by omega, by omega⟩
    · intro _
      trivial

/-! ### Snapshot refresher: scheduling loop and backoff -/

/-- Retry floor: 5 minutes, in nanoseconds as a Go `time.Duration`. -/
def backoffFloor : Nat := 5 * 60 * 1000000000

/-- Retry ceiling: 6 hours, in nanoseconds as a Go `time.Duration`. -/
def backoffCap : Nat := 6 * 60 * 60 * 1000000000

/-- The backoff update of the loop's failure branch: start at the floor
when no backoff is pending, otherwise double, then clamp to the cap. -/
def nextBackoff (b : Nat) : Nat :=
  let b' := if b = 0 then backoffFloor else b * 2
  if backoffCap < b' then backoffCap else b'

/-- The loop's scheduling state: the pending backoff, the delay the
ticker was last reset to, and the base polling interval. -/
structure LoopState where
  backoff : Nat
  nextDelay : Nat
  interval : Nat
  deriving Repr, DecidableEq

/-- One iteration of the refresher loop after a tick: a successful
attempt clears the backoff and rearms the ticker with the base interval;
a failed attempt advances the backoff and rearms the ticker with it. -/
def loopStep (st : LoopState) (success : Bool) : LoopState :=
  if success then { st with backoff := 0, nextDelay := st.interval }
  else
    let b := nextBackoff st.backoff
    { st with backoff := b, nextDelay := b }

/-- `k` consecutive failed iterations. -/
def iterFail (st : LoopState) : Nat → LoopState
  | 0 => st
  | k + 1 => loopStep (iterFail st k) false

/-- The possible outcomes of one `tryRefresh` attempt, in source order. -/
inductive FetchOutcome
  | fetchError | notModified | badStatus | readError | invalidPayload
  | ensureDirError | writeTmpError | renameError | installed
  deriving Repr, DecidableEq

/-- How `tryRefresh` updates `consecutiveFailures` for each outcome: both
success outcomes (not-modified and a full install) reset it to zero. -/
def nextFailures (n : Nat) : FetchOutcome → Nat
  | .fetchError => n
  | .notModified => 0
  | .badStatus => n + 1
  | .readError => n + 1
  | .invalidPayload => n + 1
  | .ensureDirError => n + 1
  | .writeTmpError => n + 1
  | .renameError => n
  | .installed => 0

/-- Doubling a clamped backoff stays clamped one power higher. -/
theorem nextBackoff_min (k : Nat) :
    nextBackoff (min (backoffFloor * 2 ^ k) backoffCap)
      = min (backoffFloor * 2 ^ (k + 1)) backoffCap := by
  have hx : 1 ≤ 2 ^ k := Nat.one_le_pow k 2 (by norm_num)
  have hsucc : backoffFloor * 2 ^ (k + 1) = backoffFloor * 2 ^ k * 2 := by
    rw [pow_succ, mul_assoc]
  have hy1 : backoffFloor ≤ backoffFloor * 2 ^ k :=
    calc backoffFloor = backoffFloor * 1 := by ring
    _ ≤ backoffFloor * 2 ^ k := Nat.mul_le_mul_left _ hx
  rw [hsucc]
  generalize hy : backoffFloor * 2 ^ k = y at hy1 ⊢
  have hF : backoffFloor = 300000000000 := rfl
  have hC : backoffCap = 21600000000000 := rfl
  rw [hF] at hy1
  simp only [nextBackoff, Nat.min_def, hC, hF]
  split_ifs <;> first | omega | contradiction

/-- Backoff after `k + 1` consecutive failures, starting from a cleared
backoff: the floor doubled `k` times, clamped at the cap; the ticker
delay agrees with it. -/
theorem iterFail_formula (d i : Nat) (k : Nat) :
    iterFail ⟨0, d, i⟩ (k + 1)
      = ⟨min (backoffFloor * 2 ^ k) backoffCap,
         min (backoffFloor * 2 ^ k) backoffCap, i⟩ := by
  induction k with
  | zero =>
    show loopStep ⟨0, d, i⟩ false = _
    unfold loopStep nextBackoff
    norm_num [backoffFloor, backoffCap, Nat.min_def]
  | succ k ih =>
    show loopStep (iterFail ⟨0, d, i⟩ (k + 1)) false = _
    rw [ih]
    unfold loopStep
    rw [if_neg (by simp)]
    simp only [nextBackoff_min k]

/-- C6: after `k + 1` consecutive failures the next retry delay is
`min(floor · 2^k, cap)` — the floor on the first failure, doubling on
each further one, clamped at the ceiling — while any successful
iteration rearms the ticker with the base polling interval and clears the
backoff, and both success outcomes of an attempt (not-modified included)
reset the consecutive-failure counter to zero. -/
theorem backoff_schedule (d i k : Nat) :
    (iterFail ⟨0, d, i⟩ (k + 1)).nextDelay
      = min (backoffFloor * 2 ^ k) backoffCap ∧
    (∀ st : LoopState, loopStep st true = ⟨0, st.interval, st.interval⟩) ∧
    (∀ n : Nat, nextFailures n .notModified = 0 ∧
      nextFailures n .installed = 0) := by
  refine ⟨?_, ?_, ?_⟩
  · rw [iterFail_formula]
  · intro st
    cases st
    rfl
  · intro n
    exact ⟨rfl, rfl⟩

/-! ### Ingestion: SSRF address filtering -/

/-- A `net.IP`: its byte slice (length 4 or 16 for well-formed values). -/
abbrev NetIP : Type := List Nat

/-- The 12-byte v4-in-v6 mapping pattern `::ffff:0:0/96`. -/
def v4InV6Pattern : List Nat := [0, 0, 0, 0, 0, 0, 0, 0, 0, 0, 255, 255]

/-- Go `IP.To4`: a 4-byte address as is; a 16-byte v4-mapped address
reduced to its last four bytes; anything else is nil. -/
def ipTo4 (ip : NetIP) : Option (List Nat) :=
  if ip.length = 4 then some ip
  else if ip.length = 16 ∧ ip.take 12 = v4InV6Pattern then some (ip.drop 12)
  else none

/-- Go `IP.To16`: widen a 4-byte address, keep a 16-byte one, nil else. -/
def ipTo16 (ip : NetIP) : Option (List Nat) :=
  if ip.length = 4 then some (v4InV6Pattern ++ ip)
  else if ip.length = 16 then some ip
  else none

/-- Go `IP.Equal`: byte equality at equal lengths, v4-mapped comparison
across representations. -/
def ipEqual (a b : NetIP) : Bool :=
  if a.length = b.length then a == b
  else if a.length = 4 ∧ b.length = 16 then
    (b.take 12 == v4InV6Pattern) && (b.drop 12 == a)
  else if a.length = 16 ∧ b.length = 4 then
    (a.take 12 == v4InV6Pattern) && (a.drop 12 == b)
  else false

/-- The IPv6 loopback address `::1`. -/
def v6Loopback : NetIP := List.replicate 15 0 ++ [1]

/-- Go `IP.IsLoopback`. -/
def ipIsLoopback (ip : NetIP) : Bool :=
  match ipTo4 ip with
  | some v4 => v4.getD 0 0 == 127
  | none => ipEqual ip v6Loopback

/-- Go `IP.IsUnspecified`: equal to `0.0.0.0` or `::`. -/
def ipIsUnspecified (ip : NetIP) : Bool :=
  ipEqual ip [0, 0, 0, 0] || ipEqual ip (List.replicate 16 0)

/-- Go `IP.IsMulticast`: `224.0.0.0/4` or `ff00::/8`. -/
def ipIsMulticast (ip : NetIP) : Bool :=
  match ipTo4 ip with
  | some v4 => decide ((v4.getD 0 0) &&& 0xf0 = 0xe0)
  | none => decide (ip.length = 16 ∧ ip.getD 0 0 = 0xff)

/-- Go `IP.IsLinkLocalUnicast`: `169.254.0.0/16` or `fe80::/10`. -/
def ipIsLinkLocalUnicast (ip : NetIP) : Bool :=
  match ipTo4 ip with
  | some v4 => decide (v4.getD 0 0 = 169 ∧ v4.getD 1 0 = 254)
  | none =>
    decide (ip.length = 16 ∧ ip.getD 0 0 = 0xfe ∧ (ip.getD 1 0) &&& 0xc0 = 0x80)

/-- Go `IP.IsLinkLocalMulticast`: `224.0.0.0/24` or `ff02::/16`. -/
def ipIsLinkLocalMulticast (ip : NetIP) : Bool :=
  match ipTo4 ip with
  | some v4 => decide (v4.getD 0 0 = 224 ∧ v4.getD 1 0 = 0 ∧ v4.getD 2 0 = 0)
  | none =>
    decide (ip.length = 16 ∧ ip.getD 0 0 = 0xff ∧ (ip.getD 1 0) &&& 0x0f = 0x02)

/-- `isDisallowedIP` from the ingestion handler: the stdlib special-range
predicates, then the private IPv4 ranges, then IPv6 unique-local
`fc00::/7` via the first byte. -/
def isDisallowedIP (ip : NetIP) : Bool :=
  if ipIsLoopback ip || ipIsUnspecified ip || ipIsMulticast ip
      || ipIsLinkLocalUnicast ip || ipIsLinkLocalMulticast ip then true
  else
    match ipTo4 ip with
    | some v4 =>
      if v4.getD 0 0 = 10 then true
      else if v4.getD 0 0 = 172 ∧ 16 ≤ v4.getD 1 0 ∧ v4.getD 1 0 ≤ 31 then true
      else if v4.getD 0 0 = 192 ∧ v4.getD 1 0 = 168 then true
      else if v4.getD 0 0 = 169 ∧ v4.getD 1 0 = 254 then true
      else false
    | none =>
      if (ipTo16 ip).isSome then decide ((ip.headD 0) &&& 0xfe = 0xfc)
      else false

/-- Outcome of handling one remote URL inside the ingestion request. -/
inductive URLStep
  | rejectedBeforeFetch
  | fetched
  deriving Repr, DecidableEq

/-- The per-URL guard of the `Blocklist` POST handler: the host's
resolved addresses are checked first; an empty resolution or any
disallowed address aborts the whole request before `client.Get` runs. -/
def processResolvedURL (ips : List NetIP) : URLStep :=
  if ips.isEmpty then .rejectedBeforeFetch
  else if ips.any isDisallowedIP then .rejectedBeforeFetch
  else .fetched

/-- The IPv6 address `fc00::1` as bytes. -/
def fc00Addr : NetIP := 0xfc :: List.replicate 14 0 ++ [1]

/-- C8: a URL whose host resolves to any loopback, unspecified,
multicast, link-local, private-IPv4 or IPv6 unique-local address is
rejected before any fetch; in particular `127.0.0.1`, `10.0.0.5`,
`169.254.0.1` and `fc00::1` are disallowed while `8.8.8.8` is not, and a
URL resolving only to `8.8.8.8` proceeds to fetch. -/
theorem ssrf_guard_rejects_disallowed (ips : List NetIP)
    (h : ∃ ip ∈ ips, isDisallowedIP ip = true) :
    processResolvedURL ips = .rejectedBeforeFetch ∧
    (∀ ip : NetIP,
      (ipIsLoopback ip || ipIsUnspecified ip || ipIsMulticast ip
        || ipIsLinkLocalUnicast ip || ipIsLinkLocalMulticast ip) = true →
      isDisallowedIP ip = true) ∧
    isDisallowedIP [127, 0, 0, 1] = true ∧
    isDisallowedIP [10, 0, 0, 5] = true ∧
    isDisallowedIP [169, 254, 0, 1] = true ∧
    isDisallowedIP fc00Addr = true ∧
    isDisallowedIP [8, 8, 8, 8] = false ∧
    processResolvedURL [[8, 8, 8, 8]] = .fetched := by
  refine ⟨?_, ?_, by decide, by decide, by decide, by decide, by decide,
    by decide⟩
  · obtain ⟨ip, hmem, hdis⟩ := h
    unfold processResolvedURL
    have hne : ips.isEmpty = false := by
      cases ips with
      | nil => exact absurd hmem (List.not_mem_nil ip)
      | cons a t => rfl
    have hany : ips.any isDisallowedIP = true :=
      List.any_eq_true.mpr ⟨ip, hmem, hdis⟩
    rw [hne, hany]
    rfl
  · intro ip hsp
    unfold isDisallowedIP
    rw [if_pos hsp]

/-- C8 witness: a resolution containing the loopback address is rejected
before any fetch. -/
theorem ssrf_guard_rejects_disallowed_witness :
    processResolvedURL [[127, 0, 0, 1]] = .rejectedBeforeFetch := by
  have h := ssrf_guard_rejects_disallowed [[127, 0, 0, 1]]
    ⟨[127, 0, 0, 1], by decide, by decide⟩
  exact h.1

end DisposableEmail
